import Mathlib

/-!
Verification development for the `derive-into` conversion code generator.

The repository is a Rust procedural macro that, given two structurally
similar type definitions and a set of per-type / per-field directives,
synthesizes conversion routines (`From` / `TryFrom` impls) between them.
This file gives a shallow embedding of:

* the slice of `syn::Type` inspected by `src/util.rs` (`Ty`),
* the recursive strategy resolver of
  `src/attribute_parsing/conversion_field.rs`
  (`decide_field_method_for_type`, `decide_field_method`,
  `extract_convertible_fields`),
* the run-time semantics of the expression templates emitted by
  `src/derive_into.rs` (`infallibleEval`, `fallibleEval`), with Rust
  values modelled by `Val` (a `HashMap` is modelled as an association
  list whose `insert` replaces an existing key or appends a new one),
* the struct / enum assembly of `src/struct_convert.rs` and
  `src/enum_convert.rs`, both the generation pipeline (which impls are
  produced, with which declared error type, and how generation errors
  propagate) and the run-time meaning of a generated conversion.

Rust `panic` sites are modelled as `Except.error` values carrying the
panic message; genuine type errors of ill-shaped inputs (unreachable in
generated code, which rustc type-checks) are modelled by the distinct
error string "type error".
-/

namespace DeriveInto

/-- Model of a `syn::Type` as far as `src/util.rs` inspects it: a type
path with a single segment carries its identifier and the list of
angle-bracketed type arguments; every other type (multi-segment paths,
references, tuples, ...) is never deconstructed by the code and is
modelled by the opaque constructor `other`. -/
inductive Ty where
  | seg1 (ident : String) (args : List Ty)
  | other
deriving Repr

/-- Embedding of `util.rs::extract_inner_type`: a single-segment path
whose identifier equals `name` yields its first type argument. -/
def extract_inner_type (ty : Ty) (name : String) : Option Ty :=
  match ty with
  | .seg1 ident (arg :: _) => if ident = name then some arg else none
  | _ => none

/-- Embedding of `util.rs::is_surrounding_type`. -/
def is_surrounding_type (ty : Ty) (name : String) : Bool :=
  (extract_inner_type ty name).isSome

/-- Embedding of `util.rs::extract_hashmap_inner_types`: a
single-segment `HashMap` path with at least two type arguments yields
the first two. -/
def extract_hashmap_inner_types (ty : Ty) : Option (Ty × Ty) :=
  match ty with
  | .seg1 ident (k :: v :: _) => if ident = "HashMap" then some (k, v) else none
  | _ => none

/-- Embedding of `conversion_field.rs::FieldConversionMethod`. -/
inductive FieldConversionMethod where
  | plain
  | unwrapOption (inner : FieldConversionMethod)
  | unwrapOrDefault (inner : FieldConversionMethod)
  | someOption (inner : FieldConversionMethod)
  | option (inner : FieldConversionMethod)
  | iterator (inner : FieldConversionMethod)
  | hashMap (key : FieldConversionMethod) (val : FieldConversionMethod)
deriving Repr, DecidableEq

theorem extract_inner_type_sizeOf {ty inner : Ty} {name : String}
    (h : extract_inner_type ty name = some inner) : sizeOf inner < sizeOf ty := by
  cases ty with
  | other => simp [extract_inner_type] at h
  | seg1 ident args =>
    cases args with
    | nil => simp [extract_inner_type] at h
    | cons a rest =>
      simp only [extract_inner_type] at h
      split at h
      · cases h; simp; omega
      · cases h

theorem extract_hashmap_sizeOf {ty k v : Ty}
    (h : extract_hashmap_inner_types ty = some (k, v)) :
    sizeOf k < sizeOf ty ∧ sizeOf v < sizeOf ty := by
  cases ty with
  | other => simp [extract_hashmap_inner_types] at h
  | seg1 ident args =>
    match args with
    | [] => simp [extract_hashmap_inner_types] at h
    | [a] => simp [extract_hashmap_inner_types] at h
    | a :: b :: rest =>
      simp only [extract_hashmap_inner_types] at h
      split at h
      · cases h; constructor <;> (simp; omega)
      · cases h

/-- Embedding of `conversion_field.rs::decide_field_method_for_type`:
recursively peel `Option`, then `Vec`, then `HashMap`; anything else is
`plain`. -/
def decide_field_method_for_type (ty : Ty) : FieldConversionMethod :=
  match h₁ : extract_inner_type ty "Option" with
  | some inner => .option (decide_field_method_for_type inner)
  | none =>
    match h₂ : extract_inner_type ty "Vec" with
    | some inner => .iterator (decide_field_method_for_type inner)
    | none =>
      match h₃ : extract_hashmap_inner_types ty with
      | some kv => .hashMap (decide_field_method_for_type kv.1)
          (decide_field_method_for_type kv.2)
      | none => .plain
termination_by sizeOf ty
decreasing_by
  · exact extract_inner_type_sizeOf h₁
  · exact extract_inner_type_sizeOf h₂
  · have h₄ : extract_hashmap_inner_types ty = some (kv.1, kv.2) := by simpa using h₃
    exact (extract_hashmap_sizeOf h₄).1
  · have h₄ : extract_hashmap_inner_types ty = some (kv.1, kv.2) := by simpa using h₃
    exact (extract_hashmap_sizeOf h₄).2

/-- Embedding of `conversion_field.rs::decide_field_method`: resolves
the strategy for a declared field type together with the `unwrap` /
`unwrap_or_default` flags and the conversion direction. -/
def decide_field_method (ty : Ty) (isFrom u ud : Bool) :
    Except String FieldConversionMethod :=
  if u && ud then
    .error "Cannot use both unwrap and unwrap_or_default"
  else if u || ud then
    match extract_inner_type ty "Option", isFrom with
    | some inner, false =>
      if u then .ok (.unwrapOption (decide_field_method_for_type inner))
      else .ok (.unwrapOrDefault (decide_field_method_for_type inner))
    | some inner, true =>
      .ok (.someOption (decide_field_method_for_type inner))
    | none, true =>
      if u then .ok (.unwrapOption (decide_field_method_for_type ty))
      else .ok (.unwrapOrDefault (decide_field_method_for_type ty))
    | none, false => .error "Cannot unwrap non-Option field"
  else
    .ok (decide_field_method_for_type ty)

/-! ## Run-time value universe and the semantics of the emitted expressions -/

/-- Model of a Rust value flowing through a generated conversion
expression: an opaque scalar, an `Option`, a `Vec`, or a `HashMap`
modelled as an association list (the list order stands for the map's
iteration order; `insertPair` below mirrors `HashMap::insert`). -/
inductive Val where
  | atom (n : Nat)
  | opt (o : Option Val)
  | list (l : List Val)
  | map (entries : List (Val × Val))
deriving Repr

mutual

/-- Decidable equality for `Val`, written by hand because the nested
occurrences of `List` defeat the deriving handler. -/
def Val.decEq : (a b : Val) → Decidable (a = b)
  | .atom n, .atom m =>
    match Nat.decEq n m with
    | isTrue h => isTrue (by rw [h])
    | isFalse h => isFalse (fun c => h (Val.atom.inj c))
  | .atom _, .opt _ => isFalse (fun h => nomatch h)
  | .atom _, .list _ => isFalse (fun h => nomatch h)
  | .atom _, .map _ => isFalse (fun h => nomatch h)
  | .opt _, .atom _ => isFalse (fun h => nomatch h)
  | .opt none, .opt none => isTrue rfl
  | .opt none, .opt (some _) => isFalse (fun h => nomatch Val.opt.inj h)
  | .opt (some _), .opt none => isFalse (fun h => nomatch Val.opt.inj h)
  | .opt (some x), .opt (some y) =>
    match Val.decEq x y with
    | isTrue h => isTrue (by rw [h])
    | isFalse h => isFalse (fun c => h (Option.some.inj (Val.opt.inj c)))
  | .opt _, .list _ => isFalse (fun h => nomatch h)
  | .opt _, .map _ => isFalse (fun h => nomatch h)
  | .list _, .atom _ => isFalse (fun h => nomatch h)
  | .list _, .opt _ => isFalse (fun h => nomatch h)
  | .list l₁, .list l₂ =>
    match Val.decEqList l₁ l₂ with
    | isTrue h => isTrue (by rw [h])
    | isFalse h => isFalse (fun c => h (Val.list.inj c))
  | .list _, .map _ => isFalse (fun h => nomatch h)
  | .map _, .atom _ => isFalse (fun h => nomatch h)
  | .map _, .opt _ => isFalse (fun h => nomatch h)
  | .map _, .list _ => isFalse (fun h => nomatch h)
  | .map l₁, .map l₂ =>
    match Val.decEqPairs l₁ l₂ with
    | isTrue h => isTrue (by rw [h])
    | isFalse h => isFalse (fun c => h (Val.map.inj c))

def Val.decEqList : (l₁ l₂ : List Val) → Decidable (l₁ = l₂)
  | [], [] => isTrue rfl
  | [], _ :: _ => isFalse (fun h => nomatch h)
  | _ :: _, [] => isFalse (fun h => nomatch h)
  | a :: as, b :: bs =>
    match Val.decEq a b, Val.decEqList as bs with
    | isTrue h₁, isTrue h₂ => isTrue (by rw [h₁, h₂])
    | isFalse h₁, _ => isFalse (fun c => h₁ (List.cons.inj c).1)
    | _, isFalse h₂ => isFalse (fun c => h₂ (List.cons.inj c).2)

def Val.decEqPairs : (l₁ l₂ : List (Val × Val)) → Decidable (l₁ = l₂)
  | [], [] => isTrue rfl
  | [], _ :: _ => isFalse (fun h => nomatch h)
  | _ :: _, [] => isFalse (fun h => nomatch h)
  | (k₁, v₁) :: r₁, (k₂, v₂) :: r₂ =>
    match Val.decEq k₁ k₂, Val.decEq v₁ v₂, Val.decEqPairs r₁ r₂ with
    | isTrue h₁, isTrue h₂, isTrue h₃ => isTrue (by rw [h₁, h₂, h₃])
    | isFalse h₁, _, _ =>
      isFalse (fun c => h₁ (congrArg Prod.fst (List.cons.inj c).1))
    | _, isFalse h₂, _ =>
      isFalse (fun c => h₂ (congrArg Prod.snd (List.cons.inj c).1))
    | _, _, isFalse h₃ => isFalse (fun c => h₃ (List.cons.inj c).2)

end

instance : DecidableEq Val := Val.decEq

/-- Model of `HashMap::insert`: replace the value when the key is
already present, otherwise append the new entry. -/
def insertPair (entries : List (Val × Val)) (k v : Val) : List (Val × Val) :=
  if entries.any (fun e => e.1 = k) then
    entries.map (fun e => if e.1 = k then (k, v) else e)
  else entries ++ [(k, v)]

/-- Error-propagating map over a list, mirroring
`iter().map(..).collect::<Result<Vec<_>, _>>()`: stops at the first
failing element. -/
def exceptMapList (g : Val → Except String Val) : List Val → Except String (List Val)
  | [] => .ok []
  | x :: xs =>
    match g x with
    | .error e => .error e
    | .ok y =>
      match exceptMapList g xs with
      | .error e => .error e
      | .ok ys => .ok (y :: ys)

/-- Error-propagating map over entry pairs, converting the key before
the value of each entry. -/
def exceptMapPairs (gk gv : Val → Except String Val) :
    List (Val × Val) → Except String (List (Val × Val))
  | [] => .ok []
  | e :: rest =>
    match gk e.1 with
    | .error err => .error err
    | .ok k =>
      match gv e.2 with
      | .error err => .error err
      | .ok v =>
        match exceptMapPairs gk gv rest with
        | .error err => .error err
        | .ok tail => .ok ((k, v) :: tail)

/-- Sequential insertion of converted pairs, mirroring `collect()` into
a `HashMap` (each produced pair is `insert`ed in turn). -/
def foldInsertAll (acc : List (Val × Val)) : List (Val × Val) → List (Val × Val)
  | [] => acc
  | (k, v) :: rest => foldInsertAll (insertPair acc k v) rest

/-- Embedding of the loop emitted by `derive_into.rs::fallible_expr` for
`HashMap` strategies: `for (k, v) in value { result.insert(kExpr?, vExpr?); }`
— the key expression runs before the value expression of the same entry
and the first failure short-circuits the whole loop. -/
def fallibleMapFold (gk gv : Val → Except String Val) (acc : List (Val × Val)) :
    List (Val × Val) → Except String (List (Val × Val))
  | [] => .ok acc
  | e :: rest =>
    match gk e.1 with
    | .error err => .error err
    | .ok k =>
      match gv e.2 with
      | .error err => .error err
      | .ok v => fallibleMapFold gk gv (insertPair acc k v) rest

/-- Panic message of `infallible_expr`'s `UnwrapOption` branch:
`.expect(format!("Expected value to exist when converting").as_str())`. -/
def unwrapPanicMsg : String := "Expected value to exist when converting"

/-- Error string of `fallible_expr`'s `UnwrapOption` branch:
`.ok_or_else(|| String::from("Expected value to exist"))`. -/
def unwrapErrMsg : String := "Expected value to exist"

/-- Run-time semantics of the expression emitted by
`derive_into.rs::infallible_expr` for a strategy tree. `f` is the
meaning of `.into()` at `Plain` leaves, `dflt` the `Default::default()`
value used by `unwrap_or_default`. The `Except` layer carries the one
run-time panic (`unwrapOption` over an empty option, message
`unwrapPanicMsg`) and the unreachable shape mismatches ("type error"). -/
def infallibleEval (f : Val → Val) (dflt : Val) :
    FieldConversionMethod → Val → Except String Val
  | .plain, v => .ok (f v)
  | .option m, v =>
    match v with
    | .opt none => .ok (.opt none)
    | .opt (some x) =>
      match infallibleEval f dflt m x with
      | .error e => .error e
      | .ok y => .ok (.opt (some y))
    | _ => .error "type error"
  | .iterator m, v =>
    match v with
    | .list l =>
      match exceptMapList (fun x => infallibleEval f dflt m x) l with
      | .error e => .error e
      | .ok ys => .ok (.list ys)
    | _ => .error "type error"
  | .hashMap km vm, v =>
    match v with
    | .map l =>
      match exceptMapPairs (fun x => infallibleEval f dflt km x)
          (fun x => infallibleEval f dflt vm x) l with
      | .error e => .error e
      | .ok ps => .ok (.map (foldInsertAll [] ps))
    | _ => .error "type error"
  | .unwrapOption m, v =>
    match v with
    | .opt (some x) => infallibleEval f dflt m x
    | .opt none => .error unwrapPanicMsg
    | _ => .error "type error"
  | .unwrapOrDefault m, v =>
    match v with
    | .opt o => infallibleEval f dflt m (o.getD dflt)
    | _ => .error "type error"
  | .someOption m, v =>
    match infallibleEval f dflt m v with
    | .error e => .error e
    | .ok y => .ok (.opt (some y))

/-- Run-time semantics of the expression emitted by
`derive_into.rs::fallible_expr`. `g` is the meaning of
`.try_into().map_err(|e| format!("{:?}", e))` at `Plain` leaves (its
error string is the already-Debug-formatted inner error). -/
def fallibleEval (g : Val → Except String Val) (dflt : Val) :
    FieldConversionMethod → Val → Except String Val
  | .plain, v => g v
  | .option m, v =>
    match v with
    | .opt none => .ok (.opt none)
    | .opt (some x) =>
      match fallibleEval g dflt m x with
      | .error e => .error e
      | .ok y => .ok (.opt (some y))
    | _ => .error "type error"
  | .iterator m, v =>
    match v with
    | .list l =>
      match exceptMapList (fun x => fallibleEval g dflt m x) l with
      | .error e => .error e
      | .ok ys => .ok (.list ys)
    | _ => .error "type error"
  | .hashMap km vm, v =>
    match v with
    | .map l =>
      match fallibleMapFold (fun x => fallibleEval g dflt km x)
          (fun x => fallibleEval g dflt vm x) [] l with
      | .error e => .error e
      | .ok ps => .ok (.map ps)
    | _ => .error "type error"
  | .unwrapOption m, v =>
    match v with
    | .opt (some x) => fallibleEval g dflt m x
    | .opt none => .error unwrapErrMsg
    | _ => .error "type error"
  | .unwrapOrDefault m, v =>
    match v with
    | .opt o => fallibleEval g dflt m (o.getD dflt)
    | _ => .error "type error"
  | .someOption m, v =>
    match fallibleEval g dflt m v with
    | .error e => .error e
    | .ok y => .ok (.opt (some y))

/-- Uniform failure format of `derive_into.rs` / `struct_convert.rs` /
`enum_convert.rs`:
`format!("Failed trying to convert {} to {}: {}", source, target, e)`. -/
def uniformErr (sourceLabel targetLabel e : String) : String :=
  "Failed trying to convert " ++ sourceLabel ++ " to " ++ targetLabel ++ ": " ++ e

/-- Embedding of the `map_err` wrapper that
`derive_into.rs::field_falliable_conversion` applies around the fallible
strategy expression of one field (non-`anyhow` build: `format!`). -/
def fieldFallibleConv (g : Val → Except String Val) (dflt : Val)
    (m : FieldConversionMethod) (sourceLabel targetLabel : String) (v : Val) :
    Except String Val :=
  match fallibleEval g dflt m v with
  | .error e => .error (uniformErr sourceLabel targetLabel e)
  | .ok w => .ok w

/-! ## Conversion metadata, field attributes, and field extraction -/

/-- Embedding of `conversion_meta.rs::ConversionMethod`. -/
inductive ConversionMethod where
  | Into
  | TryInto
  | From
  | TryFrom
deriving Repr, DecidableEq

/-- Embedding of `ConversionMethod::is_from`. -/
def ConversionMethod.is_from : ConversionMethod → Bool
  | .From | .TryFrom => true
  | _ => false

/-- Embedding of `ConversionMethod::is_falliable` (source spelling). -/
def ConversionMethod.is_falliable : ConversionMethod → Bool
  | .TryInto | .TryFrom => true
  | _ => false

/-- Embedding of `conversion_meta.rs::ConversionMeta`; `syn::Path` type
names are modelled by strings. -/
structure ConversionMeta where
  source_name : String
  target_name : String
  method : ConversionMethod
  default_allowed : Bool
  validate : Option String
deriving Repr, DecidableEq

/-- Embedding of `ConversionMeta::other_type`. -/
def ConversionMeta.other_type (m : ConversionMeta) : String :=
  if m.method.is_from then m.source_name else m.target_name

/-- Embedding of `conversion_field.rs::FieldIdentifier`. -/
inductive FieldIdentifier where
  | named (s : String)
  | unnamed (i : Nat)
deriving Repr, DecidableEq

/-- Token rendering of a field identifier as used in
`source.#source_name` (a named ident or a positional index). -/
def FieldIdentifier.render : FieldIdentifier → String
  | .named s => s
  | .unnamed i => toString i

/-- Embedding of `FieldIdentifier::as_named` (`field{i}` for positional
fields). -/
def FieldIdentifier.as_named : FieldIdentifier → String
  | .named s => s
  | .unnamed i => "field" ++ toString i

/-- Embedding of `conversion_field.rs::ConvertFieldAttr`: one
path-scoped (or unscoped) per-conversion-kind attribute entry. -/
structure ConvertFieldAttr where
  path : Option String := none
  skip : Bool := false
  unwrap : Bool := false
  unwrap_or_default : Bool := false
  default : Bool := false
  rename : Option String := none
  with_func : Option String := none
deriving Repr, DecidableEq

/-- Embedding of `conversion_field.rs::ConvertField`: one declared field
with all its parsed attributes. -/
structure ConvertField where
  ident : Option String
  ty : Ty
  skip : Bool := false
  rename : Option String := none
  default : Bool := false
  unwrap : Bool := false
  unwrap_or_default : Bool := false
  with_func : Option String := none
  fromAttrs : List ConvertFieldAttr := []
  tryFromAttrs : List ConvertFieldAttr := []
  intoAttrs : List ConvertFieldAttr := []
  tryIntoAttrs : List ConvertFieldAttr := []
deriving Repr

/-- Embedding of `conversion_field.rs::ConvertibleField` (the `span`
diagnostic position is not modelled). -/
structure ConvertibleField where
  source_name : FieldIdentifier
  skip : Bool
  default : Bool
  method : FieldConversionMethod
  target_name : FieldIdentifier
  conversion_func : Option String
deriving Repr

/-- Attribute list of a `ConvertField` for one conversion kind. -/
def ConvertField.attrsFor (f : ConvertField) : ConversionMethod → List ConvertFieldAttr
  | .From => f.fromAttrs
  | .TryFrom => f.tryFromAttrs
  | .Into => f.intoAttrs
  | .TryInto => f.tryIntoAttrs

/-- Body of the per-field loop of
`conversion_field.rs::extract_convertible_fields`, over the indexed
field list. A `skip`ped field contributes nothing; more than one
path-matching attribute entry is a hard error. -/
def extractFieldsLoop (conversion_type : ConversionMethod) (other_type : String) :
    List (Nat × ConvertField) → Except String (List ConvertibleField)
  | [] => .ok []
  | (i, field) :: rest =>
    let source_name : FieldIdentifier :=
      match field.ident with
      | some s => .named s
      | none => .unnamed i
    let matching := (field.attrsFor conversion_type).filter
      (fun a => a.path.all (fun p => p = other_type))
    match matching with
    | _ :: _ :: _ => .error "Expected exactly one conversion attribute for field"
    | attrs =>
      let attr := attrs.head?
      let u := match attr with
        | some a => a.unwrap
        | none => field.unwrap
      let ud := match attr with
        | some a => a.unwrap_or_default
        | none => field.unwrap_or_default
      let dflt := match attr with
        | some a => a.default
        | none => field.default
      let sk := field.skip || (match attr with
        | some a => a.skip
        | none => false)
      if sk then
        extractFieldsLoop conversion_type other_type rest
      else
        let target_name : FieldIdentifier :=
          match (attr.bind (fun a => a.rename)).or field.rename with
          | some r => .named r
          | none => source_name
        match decide_field_method field.ty conversion_type.is_from u ud with
        | .error e => .error e
        | .ok method =>
          let conversion_func := (attr.bind (fun a => a.with_func)).or field.with_func
          let pair : FieldIdentifier × FieldIdentifier :=
            if conversion_type.is_from then (target_name, source_name)
            else (source_name, target_name)
          match extractFieldsLoop conversion_type other_type rest with
          | .error e => .error e
          | .ok tail =>
            .ok ({ source_name := pair.1, skip := false, default := dflt,
                   method := method, target_name := pair.2,
                   conversion_func := conversion_func } :: tail)

/-- Models the final stable `sort_by` of `extract_convertible_fields`:
the comparator only distinguishes presence of a custom conversion
function and returns `Equal` otherwise, and Rust's `sort_by` is stable,
so the sort is exactly a stable partition with the with-func fields
first. -/
def sortFuncFirst (l : List ConvertibleField) : List ConvertibleField :=
  l.filter (fun f => f.conversion_func.isSome) ++
    l.filter (fun f => f.conversion_func.isNone)

/-- Embedding of `conversion_field.rs::extract_convertible_fields`. -/
def extract_convertible_fields (fields : List ConvertField)
    (conversion_type : ConversionMethod) (other_type : String) :
    Except String (List ConvertibleField) :=
  match extractFieldsLoop conversion_type other_type fields.enum with
  | .error e => .error e
  | .ok l => .ok (sortFuncFirst l)

/-! ## Generation pipeline: which impls are produced, with which shape -/

/-- Outcome classification of one run of the derive macro: a returned
`syn::Error` (rendered as a compile error) or a Rust `panic` escaping
the proc macro. -/
inductive GenErr where
  | err (msg : String)
  | panicked (msg : String)
deriving Repr, DecidableEq

/-- Shape of `syn::Fields` for the deriving struct. -/
inductive StructFields where
  | named (fields : List ConvertField)
  | unnamed (fields : List ConvertField)
  | unit
deriving Repr

/-- Static shape of one generated struct conversion impl:
the impl header data of `struct_convert.rs::implement_struct_conversion`
together with the field plans its body converts. `error_type` is the
declared associated `Error` type token (`some` only for fallible
impls). -/
structure StructImpl where
  source_name : String
  target_name : String
  falliable : Bool
  error_type : Option String
  validated : Option String
  named_struct : Bool
  default_allowed : Bool
  fields : List ConvertibleField
deriving Repr

/-- Embedding of `struct_convert.rs::implement_struct_conversion`
(minus token assembly): rejects `default` on unnamed structs, and
declares `anyhow::Error` as the error type exactly when the crate's
`anyhow` feature is enabled, `String` otherwise. -/
def implement_struct_conversion (meta : ConversionMeta) (named_struct : Bool)
    (fields : List ConvertibleField) (anyhowFeature : Bool) :
    Except String StructImpl :=
  if !named_struct && meta.default_allowed then
    .error "Default values are not supported for unnamed structs"
  else
    .ok { source_name := meta.source_name
          target_name := meta.target_name
          falliable := meta.method.is_falliable
          error_type :=
            if meta.method.is_falliable then
              some (if anyhowFeature then "anyhow::Error" else "String")
            else none
          validated := meta.validate
          named_struct := named_struct
          default_allowed := meta.default_allowed
          fields := fields }

/-- One conversion of the `implement_all_struct_conversions` loop:
extract the convertible fields, then implement the impl. -/
def oneStructConversion (fields : List ConvertField) (named_struct : Bool)
    (anyhowFeature : Bool) (conversion : ConversionMeta) :
    Except GenErr StructImpl :=
  match extract_convertible_fields fields conversion.method conversion.other_type with
  | .error e => .error (.err e)
  | .ok cfs =>
    match implement_struct_conversion conversion named_struct cfs anyhowFeature with
    | .error e => .error (.err e)
    | .ok impl => .ok impl

/-- Error-propagating map modelling `collect::<Result<Vec<_>, _>>` over
the declared conversions: the first failing conversion aborts the whole
derive. -/
def genAll (f : ConversionMeta → Except GenErr StructImpl) :
    List ConversionMeta → Except GenErr (List StructImpl)
  | [] => .ok []
  | c :: rest =>
    match f c with
    | .error e => .error e
    | .ok impl =>
      match genAll f rest with
      | .error e => .error e
      | .ok tail => .ok (impl :: tail)

/-- Embedding of `struct_convert.rs::implement_all_struct_conversions`:
panics on unit structs, then generates every declared conversion,
short-circuiting on the first error. -/
def implement_all_struct_conversions (ds : StructFields)
    (conversions : List ConversionMeta) (anyhowFeature : Bool) :
    Except GenErr (List StructImpl) :=
  match ds with
  | .unit => .error (.panicked "Unit structs are not supported for conversion")
  | .named fds => genAll (oneStructConversion fds true anyhowFeature) conversions
  | .unnamed fds => genAll (oneStructConversion fds false anyhowFeature) conversions

/-- Static shape of one generated enum conversion impl
(`enum_convert.rs::implement_enum_conversion`): the associated `Error`
type is the literal token `String` whenever the direction is fallible,
with no feature test. -/
structure EnumImpl where
  source_name : String
  target_name : String
  falliable : Bool
  error_type : Option String
  validated : Option String
deriving Repr, DecidableEq

/-- Embedding of the impl-header part of
`enum_convert.rs::implement_enum_conversion`. -/
def implement_enum_conversion (meta : ConversionMeta) : EnumImpl :=
  { source_name := meta.source_name
    target_name := meta.target_name
    falliable := meta.method.is_falliable
    error_type := if meta.method.is_falliable then some "String" else none
    validated := meta.validate }

/-! ## Run-time semantics of a generated struct conversion -/

/-- A Rust struct value: named fields as an association list read by
name, positional fields read by index. -/
inductive StructVal where
  | named (fields : List (String × Val))
  | positional (fields : List Val)
deriving Repr

/-- Field access on a named struct value. -/
def getFieldNamed (name : String) : List (String × Val) → Except String Val
  | [] => .error "type error"
  | (n, v) :: rest => if n = name then .ok v else getFieldNamed name rest

/-- Meaning of the `source.#source_name` read emitted with
`source_prefix == true`. -/
def readSource (source : StructVal) : FieldIdentifier → Except String Val
  | .named s =>
    match source with
    | .named fs => getFieldNamed s fs
    | .positional _ => .error "type error"
  | .unnamed i =>
    match source with
    | .positional fs =>
      match fs.get? i with
      | some v => .ok v
      | none => .error "type error"
    | .named _ => .error "type error"

/-- The `stringify!(#source_name)` label of a field conversion error:
with `source_prefix` the emitted tokens are `source.<ident>`. -/
def fieldLabel (viaSource : Bool) (id : FieldIdentifier) : String :=
  if viaSource then "source." ++ id.render else id.as_named

/-- Run-time meaning of the tokens emitted by
`derive_into.rs::field_falliable_conversion` for one field: `none` when
the field is skipped (no tokens emitted), otherwise the
`(target_name, value)` assignment it contributes. `fEnv` gives the
meaning of custom `with_func` functions (with the Debug formatting of
their error folded in), `dfltField` the meaning of
`Default::default()` for the field. -/
def fieldFallibleSem (fEnv : String → StructVal → Except String Val)
    (g : Val → Except String Val) (dflt dfltField : Val) (target_type : String)
    (viaSource : Bool) (source : StructVal) (fc : ConvertibleField) :
    Except String (Option (FieldIdentifier × Val)) :=
  if fc.skip then .ok none
  else if fc.default then .ok (some (fc.target_name, dfltField))
  else
    match fc.conversion_func with
    | some fname =>
      match fEnv fname source with
      | .error e =>
        .error (uniformErr (fieldLabel viaSource fc.source_name) target_type e)
      | .ok v => .ok (some (fc.target_name, v))
    | none =>
      match readSource source fc.source_name with
      | .error e => .error e
      | .ok v =>
        match fieldFallibleConv g dflt fc.method
            (fieldLabel viaSource fc.source_name) target_type v with
        | .error e => .error e
        | .ok w => .ok (some (fc.target_name, w))

/-- Run-time meaning of the tokens emitted by
`derive_into.rs::field_infalliable_conversion` for one field. The
`Except` layer only carries panics and unreachable shape errors. -/
def fieldInfallibleSem (fEnvInf : String → StructVal → Val)
    (f : Val → Val) (dflt dfltField : Val) (source : StructVal)
    (fc : ConvertibleField) : Except String (Option (FieldIdentifier × Val)) :=
  if fc.skip then .ok none
  else if fc.default then .ok (some (fc.target_name, dfltField))
  else
    match fc.conversion_func with
    | some fname => .ok (some (fc.target_name, fEnvInf fname source))
    | none =>
      match readSource source fc.source_name with
      | .error e => .error e
      | .ok v =>
        match infallibleEval f dflt fc.method v with
        | .error e => .error e
        | .ok w => .ok (some (fc.target_name, w))

/-- Error-propagating accumulation of the field assignments of one
generated constructor body, in emission order. -/
def collectAssigns (step : ConvertibleField → Except String (Option (FieldIdentifier × Val))) :
    List ConvertibleField → Except String (List (FieldIdentifier × Val))
  | [] => .ok []
  | fc :: rest =>
    match step fc with
    | .error e => .error e
    | .ok none => collectAssigns step rest
    | .ok (some a) =>
      match collectAssigns step rest with
      | .error e => .error e
      | .ok tail => .ok (a :: tail)

/-- The constructed target value: named targets pair each emitted
assignment with its target identifier; positional targets take the
emitted expressions in emission order as the constructor arguments. -/
def buildTarget (named_struct : Bool) (assigns : List (FieldIdentifier × Val)) :
    StructVal :=
  if named_struct then .named (assigns.map (fun a => (a.1.render, a.2)))
  else .positional (assigns.map (fun a => a.2))

/-- Run-time meaning of the generated `TryFrom` impl body for a struct
(`struct_convert.rs::implement_struct_conversion`, fallible branch): the
validation hook, when declared, runs first against a reference to the
whole source value and its failure short-circuits with the uniform
message naming source and target type; then the fields are converted in
emission order and the target is constructed. -/
def structTryFromSem (source_name target_name : String)
    (validate : Option (StructVal → Except String Unit)) (named_struct : Bool)
    (fields : List ConvertibleField)
    (fEnv : String → StructVal → Except String Val)
    (g : Val → Except String Val) (dflt dfltField : Val) (source : StructVal) :
    Except String StructVal :=
  match
    match validate with
    | some vf =>
      match vf source with
      | .error e => Except.error (uniformErr source_name target_name e)
      | .ok _ => Except.ok ()
    | none => Except.ok ()
  with
  | .error e => .error e
  | .ok _ =>
    match collectAssigns
        (fieldFallibleSem fEnv g dflt dfltField target_name true source) fields with
    | .error e => .error e
    | .ok assigns => .ok (buildTarget named_struct assigns)

/-- Run-time meaning of the generated `From` impl body for a struct
(infallible branch; no validation hook is possible there). -/
def structFromSem (named_struct : Bool) (fields : List ConvertibleField)
    (fEnvInf : String → StructVal → Val) (f : Val → Val) (dflt dfltField : Val)
    (source : StructVal) : Except String StructVal :=
  match collectAssigns (fieldInfallibleSem fEnvInf f dflt dfltField source) fields with
  | .error e => .error e
  | .ok assigns => .ok (buildTarget named_struct assigns)

/-! ## Run-time semantics of a generated enum conversion -/

/-- Embedding of `conversion_enum.rs::ConversionVariant` as consumed by
`enum_convert.rs::implement_enum_conversion` (which destructures exactly
these four components). -/
structure ConversionVariant where
  source_name : String
  target_name : String
  named_variant : Bool
  fields : List ConvertibleField
deriving Repr

/-- A Rust enum value: the active variant's name and its payload. -/
structure EnumVal where
  variant : String
  payload : StructVal
deriving Repr

/-- Value bound to the pattern variable of the field at list position
`j` of a variant arm: named-variant patterns bind by field name,
positional-variant patterns bind position `j` of the payload (the
pattern `(#(#source_fields),*)` lists the bound names in field-list
order). -/
def armFieldValue (payload : StructVal) (j : Nat) (fc : ConvertibleField) :
    Except String Val :=
  match payload, fc.source_name with
  | .named fs, .named s => getFieldNamed s fs
  | .positional vs, _ =>
    match vs.get? j with
    | some v => .ok v
    | none => .error "type error"
  | .named _, .unnamed _ => .error "type error"

/-- Field assignments of one enum match arm, walking the variant's field
list with its position, converting each field with the fallible
semantics (`source_prefix == false`, so error labels use the bound
pattern name). -/
def enumArmAssigns (fEnv : String → StructVal → Except String Val)
    (g : Val → Except String Val) (dflt dfltField : Val) (target_type : String)
    (payload : StructVal) (j : Nat) :
    List ConvertibleField → Except String (List (FieldIdentifier × Val))
  | [] => .ok []
  | fc :: rest =>
    if fc.skip then enumArmAssigns fEnv g dflt dfltField target_type payload (j + 1) rest
    else if fc.default then
      match enumArmAssigns fEnv g dflt dfltField target_type payload (j + 1) rest with
      | .error e => .error e
      | .ok tail => .ok ((fc.target_name, dfltField) :: tail)
    else
      match fc.conversion_func with
      | some fname =>
        match fEnv fname payload with
        | .error e => .error (uniformErr (fieldLabel false fc.source_name) target_type e)
        | .ok v =>
          match enumArmAssigns fEnv g dflt dfltField target_type payload (j + 1) rest with
          | .error e => .error e
          | .ok tail => .ok ((fc.target_name, v) :: tail)
      | none =>
        match armFieldValue payload j fc with
        | .error e => .error e
        | .ok v =>
          match fieldFallibleConv g dflt fc.method
              (fieldLabel false fc.source_name) target_type v with
          | .error e => .error e
          | .ok w =>
            match enumArmAssigns fEnv g dflt dfltField target_type payload (j + 1) rest with
            | .error e => .error e
            | .ok tail => .ok ((fc.target_name, w) :: tail)

/-- Run-time meaning of the generated `TryFrom` impl body for an enum
(`enum_convert.rs::implement_enum_conversion`, fallible branch): the
validation hook, when declared, runs once up front against the whole
source value — before the `match` — and its failure short-circuits with
the uniform message; then the arm of the source variant converts that
variant's fields. `dfltRest` models the fields a `..Default::default()`
tail fills in named arms when `default` is declared on the plan. -/
def enumTryFromSem (source_name target_name : String)
    (validate : Option (EnumVal → Except String Unit))
    (variants : List ConversionVariant) (dfltRest : List (String × Val))
    (fEnv : String → StructVal → Except String Val)
    (g : Val → Except String Val) (dflt dfltField : Val) (source : EnumVal) :
    Except String EnumVal :=
  match
    match validate with
    | some vf =>
      match vf source with
      | .error e => Except.error (uniformErr source_name target_name e)
      | .ok _ => Except.ok ()
    | none => Except.ok ()
  with
  | .error e => .error e
  | .ok _ =>
    match variants.find? (fun v => v.source_name == source.variant) with
    | none => .error "type error"
    | some arm =>
      if arm.fields.isEmpty then
        .ok { variant := arm.target_name, payload := .positional [] }
      else
        match enumArmAssigns fEnv g dflt dfltField target_name
            source.payload 0 arm.fields with
        | .error e => .error e
        | .ok assigns =>
          if arm.named_variant then
            .ok { variant := arm.target_name
                  payload := .named ((assigns.map (fun a => (a.1.render, a.2))) ++ dfltRest) }
          else
            .ok { variant := arm.target_name
                  payload := .positional (assigns.map (fun a => a.2)) }

/-! ## Rewrite equations for the strategy resolver -/

theorem decideType_eq_option {ty inner : Ty}
    (h : extract_inner_type ty "Option" = some inner) :
    decide_field_method_for_type ty = .option (decide_field_method_for_type inner) := by
  rw [decide_field_method_for_type]
  split
  · next inner' heq =>
    rw [h] at heq
    cases heq
    rfl
  · next heq =>
    rw [h] at heq
    exact Option.noConfusion heq

theorem decideType_eq_vec {ty inner : Ty}
    (h₀ : extract_inner_type ty "Option" = none)
    (h : extract_inner_type ty "Vec" = some inner) :
    decide_field_method_for_type ty = .iterator (decide_field_method_for_type inner) := by
  rw [decide_field_method_for_type]
  split
  · next inner' heq =>
    rw [h₀] at heq
    exact Option.noConfusion heq
  · next =>
    split
    · next inner' heq =>
      rw [h] at heq
      cases heq
      rfl
    · next heq =>
      rw [h] at heq
      exact Option.noConfusion heq

theorem decideType_eq_hashmap {ty k v : Ty}
    (h₀ : extract_inner_type ty "Option" = none)
    (h₁ : extract_inner_type ty "Vec" = none)
    (h : extract_hashmap_inner_types ty = some (k, v)) :
    decide_field_method_for_type ty =
      .hashMap (decide_field_method_for_type k) (decide_field_method_for_type v) := by
  rw [decide_field_method_for_type]
  split
  · next inner' heq => rw [h₀] at heq; exact Option.noConfusion heq
  · next =>
    split
    · next inner' heq => rw [h₁] at heq; exact Option.noConfusion heq
    · next =>
      split
      · next kv heq =>
        rw [h] at heq
        cases heq
        rfl
      · next heq => rw [h] at heq; exact Option.noConfusion heq

theorem decideType_eq_plain {ty : Ty}
    (h₀ : extract_inner_type ty "Option" = none)
    (h₁ : extract_inner_type ty "Vec" = none)
    (h₂ : extract_hashmap_inner_types ty = none) :
    decide_field_method_for_type ty = .plain := by
  rw [decide_field_method_for_type]
  split
  · next inner' heq => rw [h₀] at heq; exact Option.noConfusion heq
  · next =>
    split
    · next inner' heq => rw [h₁] at heq; exact Option.noConfusion heq
    · next =>
      split
      · next kv heq => rw [h₂] at heq; exact Option.noConfusion heq
      · next => rfl

@[simp] theorem decideType_other : decide_field_method_for_type Ty.other = .plain := by
  rw [decide_field_method_for_type]
  simp [extract_inner_type, extract_hashmap_inner_types]

@[simp] theorem decideType_option (t : Ty) (rest : List Ty) :
    decide_field_method_for_type (.seg1 "Option" (t :: rest)) =
      .option (decide_field_method_for_type t) := by
  rw [decide_field_method_for_type]
  simp [extract_inner_type]

@[simp] theorem decideType_vec (t : Ty) (rest : List Ty) :
    decide_field_method_for_type (.seg1 "Vec" (t :: rest)) =
      .iterator (decide_field_method_for_type t) := by
  rw [decide_field_method_for_type]
  simp [extract_inner_type]

@[simp] theorem decideType_hashmap (k v : Ty) (rest : List Ty) :
    decide_field_method_for_type (.seg1 "HashMap" (k :: v :: rest)) =
      .hashMap (decide_field_method_for_type k) (decide_field_method_for_type v) := by
  rw [decide_field_method_for_type]
  simp [extract_inner_type, extract_hashmap_inner_types]

/-- Strategies built purely from container shapes, with none of the
unwrap-related wrappers: the strategies `decide_field_method_for_type`
can produce. -/
def FieldConversionMethod.isPlainContainer : FieldConversionMethod → Bool
  | .plain => true
  | .option m => m.isPlainContainer
  | .iterator m => m.isPlainContainer
  | .hashMap k v => k.isPlainContainer && v.isPlainContainer
  | _ => false

theorem decideType_isPlainContainer (ty : Ty) :
    (decide_field_method_for_type ty).isPlainContainer = true := by
  induction ty using decide_field_method_for_type.induct with
  | case1 ty inner h ih =>
    rw [decideType_eq_option h]
    simpa [FieldConversionMethod.isPlainContainer] using ih
  | case2 ty h inner h2 ih =>
    rw [decideType_eq_vec h h2]
    simpa [FieldConversionMethod.isPlainContainer] using ih
  | case3 ty h h2 kv h3 ih1 ih2 =>
    rw [decideType_eq_hashmap h h2 (by simpa using h3)]
    simp [FieldConversionMethod.isPlainContainer, ih1, ih2]
  | case4 ty h h2 h3 =>
    rw [decideType_eq_plain h h2 h3]
    rfl

/-! ## Well-shaped values and the round-trip core -/


/-- Well-shapedness of a run-time value for a container strategy. -/
inductive WS : FieldConversionMethod → Val → Prop where
  | plain (v : Val) : WS .plain v
  | optNone (m : FieldConversionMethod) : WS (.option m) (.opt none)
  | optSome (m : FieldConversionMethod) (x : Val) : WS m x → WS (.option m) (.opt (some x))
  | list (m : FieldConversionMethod) (l : List Val) :
      (∀ x ∈ l, WS m x) → WS (.iterator m) (.list l)
  | map (km vm : FieldConversionMethod) (l : List (Val × Val)) :
      (∀ e ∈ l, WS km e.1) → (∀ e ∈ l, WS vm e.2) → (l.map Prod.fst).Nodup →
      WS (.hashMap km vm) (.map l)

theorem roundTripList {I F : Val → Except String Val} :
    ∀ l : List Val, (∀ x ∈ l, ∃ w, I x = .ok w ∧ F w = .ok x) →
    ∃ ws, exceptMapList I l = .ok ws ∧ exceptMapList F ws = .ok l := by
  intro l
  induction l with
  | nil => intro _; exact ⟨[], rfl, rfl⟩
  | cons x xs ih =>
    intro h
    obtain ⟨w, hw1, hw2⟩ := h x (List.mem_cons_self x xs)
    obtain ⟨ws, hws1, hws2⟩ := ih (fun y hy => h y (List.mem_cons_of_mem x hy))
    exact ⟨w :: ws, by simp [exceptMapList, hw1, hws1], by simp [exceptMapList, hw2, hws2]⟩

theorem roundTripPairs {IK FK IV FV : Val → Except String Val} :
    ∀ l : List (Val × Val),
      (∀ e ∈ l, (∃ w, IK e.1 = .ok w ∧ FK w = .ok e.1) ∧
        (∃ w, IV e.2 = .ok w ∧ FV w = .ok e.2)) →
    ∃ ws, exceptMapPairs IK IV l = .ok ws ∧
      List.Forall₂ (fun (e w : Val × Val) =>
        IK e.1 = .ok w.1 ∧ FK w.1 = .ok e.1 ∧ IV e.2 = .ok w.2 ∧ FV w.2 = .ok e.2) l ws := by
  intro l
  induction l with
  | nil => intro _; exact ⟨[], rfl, List.Forall₂.nil⟩
  | cons e rest ih =>
    intro h
    obtain ⟨⟨wk, hk1, hk2⟩, ⟨wv, hv1, hv2⟩⟩ := h e (List.mem_cons_self e rest)
    obtain ⟨ws, hws1, hws2⟩ := ih (fun y hy => h y (List.mem_cons_of_mem e hy))
    refine ⟨(wk, wv) :: ws, ?_, ?_⟩
    · simp [exceptMapPairs, hk1, hv1, hws1]
    · exact List.Forall₂.cons ⟨hk1, hk2, hv1, hv2⟩ hws2

theorem forall₂_mem_right {α β : Type} {R : α → β → Prop} {l : List α} {ws : List β} :
    List.Forall₂ R l ws → ∀ w ∈ ws, ∃ e ∈ l, R e w := by
  intro h
  induction h with
  | nil => intro w hw; cases hw
  | cons hr _ ih =>
    intro w hw
    rcases List.mem_cons.mp hw with h1 | h2
    · exact ⟨_, List.mem_cons_self _ _, h1 ▸ hr⟩
    · obtain ⟨e, he, hre⟩ := ih w h2
      exact ⟨e, List.mem_cons_of_mem _ he, hre⟩

theorem insertPair_fresh {acc : List (Val × Val)} {k : Val} (v : Val)
    (h : ∀ e ∈ acc, e.1 ≠ k) : insertPair acc k v = acc ++ [(k, v)] := by
  unfold insertPair
  have : acc.any (fun e => e.1 = k) = false := by
    simp only [List.any_eq_false, decide_eq_true_eq]
    exact h
  rw [this]
  simp

theorem foldInsertAll_nodup :
    ∀ (l acc : List (Val × Val)), ((acc ++ l).map Prod.fst).Nodup →
    foldInsertAll acc l = acc ++ l := by
  intro l
  induction l with
  | nil => intro acc _; simp [foldInsertAll]
  | cons e rest ih =>
    intro acc hnd
    obtain ⟨k, v⟩ := e
    have hfresh : ∀ e' ∈ acc, e'.1 ≠ k := by
      intro e' he' heq
      have h1 : e'.1 ∈ acc.map Prod.fst := List.mem_map_of_mem Prod.fst he'
      have h2 : (k : Val) ∈ ((k, v) :: rest).map Prod.fst := by simp
      have hd := (List.nodup_append.mp (by simpa using hnd)).2.2
      exact hd h1 (heq ▸ h2)
    have step : foldInsertAll acc ((k, v) :: rest) =
        foldInsertAll (insertPair acc k v) rest := rfl
    rw [step, insertPair_fresh v hfresh, ih]
    · simp
    · simpa using hnd



theorem fallibleMapFold_of_forall₂ {FK FV : Val → Except String Val}
    {l ws : List (Val × Val)}
    (h : List.Forall₂ (fun (e w : Val × Val) =>
      FK w.1 = .ok e.1 ∧ FV w.2 = .ok e.2) l ws) :
    ∀ acc, fallibleMapFold FK FV acc ws = .ok (foldInsertAll acc l) := by
  induction h with
  | nil => intro acc; rfl
  | cons hr hrest ih =>
    intro acc
    obtain ⟨hk, hv⟩ := hr
    simp only [fallibleMapFold, hk, hv]
    exact ih _

theorem forall₂_keys_nodup {FK : Val → Except String Val}
    {R : Val × Val → Val × Val → Prop} {l ws : List (Val × Val)}
    (h : List.Forall₂ R l ws) (hR : ∀ e w, R e w → FK w.1 = .ok e.1)
    (hnd : (l.map Prod.fst).Nodup) : (ws.map Prod.fst).Nodup := by
  induction h with
  | nil => simp
  | cons hr hrest ih =>
    next e w l' ws' =>
    simp only [List.map_cons, List.nodup_cons] at hnd ⊢
    refine ⟨?_, ih hnd.2⟩
    intro hmem
    obtain ⟨w', hw'mem, hw'eq⟩ := List.mem_map.mp hmem
    obtain ⟨e', he'mem, hre'⟩ := forall₂_mem_right hrest w' hw'mem
    have h1 : FK w.1 = .ok e.1 := hR e w hr
    have h2 : FK w'.1 = .ok e'.1 := hR e' w' hre'
    rw [hw'eq] at h2
    rw [h1] at h2
    have : e.1 = e'.1 := by injection h2
    exact hnd.1 (this ▸ List.mem_map_of_mem Prod.fst he'mem)

theorem roundTripEval {f : Val → Val} {g : Val → Except String Val} {dflt : Val}
    (lossless : ∀ x, g (f x) = .ok x) :
    ∀ m, m.isPlainContainer = true → ∀ v, WS m v →
      ∃ w, infallibleEval f dflt m v = .ok w ∧ fallibleEval g dflt m w = .ok v := by
  intro m
  induction m with
  | plain =>
    intro _ v _
    exact ⟨f v, rfl, lossless v⟩
  | option m ih =>
    intro hpc v hws
    cases hws with
    | optNone => exact ⟨.opt none, by simp [infallibleEval], by simp [fallibleEval]⟩
    | optSome _ x hx =>
      obtain ⟨w, hw1, hw2⟩ := ih (by simpa [FieldConversionMethod.isPlainContainer] using hpc) x hx
      exact ⟨.opt (some w), by simp [infallibleEval, hw1], by simp [fallibleEval, hw2]⟩
  | iterator m ih =>
    intro hpc v hws
    cases hws with
    | list _ l hl =>
      obtain ⟨ws, hws1, hws2⟩ := roundTripList l
        (fun x hx => ih (by simpa [FieldConversionMethod.isPlainContainer] using hpc) x (hl x hx))
      exact ⟨.list ws, by simp [infallibleEval, hws1], by simp [fallibleEval, hws2]⟩
  | hashMap km vm ihk ihv =>
    intro hpc v hws
    have hpck : km.isPlainContainer = true := by
      simp [FieldConversionMethod.isPlainContainer] at hpc; exact hpc.1
    have hpcv : vm.isPlainContainer = true := by
      simp [FieldConversionMethod.isPlainContainer] at hpc; exact hpc.2
    cases hws with
    | map _ _ l hlk hlv hnd =>
      obtain ⟨ws, hws1, hws2⟩ := roundTripPairs l
        (fun e he => ⟨ihk hpck e.1 (hlk e he), ihv hpcv e.2 (hlv e he)⟩)
      have hwsnd : (ws.map Prod.fst).Nodup :=
        forall₂_keys_nodup hws2 (fun e w hr => hr.2.1) hnd
      have hfold : foldInsertAll [] ws = ws := by
        have := foldInsertAll_nodup ws []
        simpa using this (by simpa using hwsnd)
      have hback : fallibleMapFold (fun x => fallibleEval g dflt km x)
          (fun x => fallibleEval g dflt vm x) [] ws = .ok l := by
        have h2 := fallibleMapFold_of_forall₂
          (List.Forall₂.imp (fun e w hr => ⟨hr.2.1, hr.2.2.2⟩) hws2) []
        have h3 : foldInsertAll [] l = l := by
          have := foldInsertAll_nodup l []
          simpa using this (by simpa using hnd)
        rw [h3] at h2
        exact h2
      refine ⟨.map ws, ?_, ?_⟩
      · simp only [infallibleEval, hws1, hfold]
      · simp only [fallibleEval, hback]
  | unwrapOption m ih =>
    intro hpc
    simp [FieldConversionMethod.isPlainContainer] at hpc
  | unwrapOrDefault m ih =>
    intro hpc
    simp [FieldConversionMethod.isPlainContainer] at hpc
  | someOption m ih =>
    intro hpc
    simp [FieldConversionMethod.isPlainContainer] at hpc


/-! ## Claim C1: round-trip -/


/-- A plain field declaration `name : Ty` with an optional global
`rename` and no other attribute, as a `ConvertField`. -/
def cleanField (d : String × Option String × Ty) : ConvertField :=
  { ident := some d.1, rename := d.2.1, ty := d.2.2 }

/-- Target-side name of a clean field: the rename when present. -/
def tgtOf (d : String × Option String × Ty) : String := (d.2.1).getD d.1

/-- The `ConvertibleField` list extraction produces for clean fields in
the `into` direction. -/
def intoList (decls : List (String × Option String × Ty)) : List ConvertibleField :=
  decls.map (fun d =>
    { source_name := .named d.1, skip := false, default := false,
      method := decide_field_method_for_type d.2.2,
      target_name := .named (tgtOf d), conversion_func := none })

/-- The `ConvertibleField` list extraction produces for clean fields in
the `try_from` direction (source and target identifiers swapped). -/
def tryFromList (decls : List (String × Option String × Ty)) : List ConvertibleField :=
  decls.map (fun d =>
    { source_name := .named (tgtOf d), skip := false, default := false,
      method := decide_field_method_for_type d.2.2,
      target_name := .named d.1, conversion_func := none })

theorem extractLoop_clean (ct : ConversionMethod) (other : String) :
    ∀ (decls : List (String × Option String × Ty)) (n : Nat),
    extractFieldsLoop ct other ((decls.map cleanField).enumFrom n) =
      .ok (if ct.is_from then tryFromList decls else intoList decls) := by
  intro decls
  induction decls with
  | nil =>
    intro n
    cases ct <;> simp [extractFieldsLoop, tryFromList, intoList, ConversionMethod.is_from]
  | cons d rest ih =>
    intro n
    rcases d with ⟨name, ren, ty⟩
    cases ct <;> cases ren <;>
      simp [extractFieldsLoop, cleanField, ConvertField.attrsFor, decide_field_method,
            ih, intoList, tryFromList, tgtOf, ConversionMethod.is_from]



theorem sortFuncFirst_no_func (l : List ConvertibleField)
    (h : ∀ fc ∈ l, fc.conversion_func = none) : sortFuncFirst l = l := by
  unfold sortFuncFirst
  have h1 : l.filter (fun f => f.conversion_func.isSome) = [] :=
    List.filter_eq_nil_iff.mpr (fun fc hfc => by simp [h fc hfc])
  have h2 : l.filter (fun f => f.conversion_func.isNone) = l :=
    List.filter_eq_self.mpr (fun fc hfc => by simp [h fc hfc])
  rw [h1, h2]
  rfl

theorem extract_clean (ct : ConversionMethod) (other : String)
    (decls : List (String × Option String × Ty)) :
    extract_convertible_fields (decls.map cleanField) ct other =
      .ok (if ct.is_from then tryFromList decls else intoList decls) := by
  unfold extract_convertible_fields
  have he : (decls.map cleanField).enum = (decls.map cleanField).enumFrom 0 := rfl
  rw [he, extractLoop_clean]
  have hnf : ∀ fc ∈ (if ct.is_from then tryFromList decls else intoList decls),
      fc.conversion_func = none := by
    intro fc hfc
    split at hfc
    · obtain ⟨d, _, rfl⟩ := List.mem_map.mp hfc
      rfl
    · obtain ⟨d, _, rfl⟩ := List.mem_map.mp hfc
      rfl
  exact congrArg Except.ok (sortFuncFirst_no_func _ hnf)

theorem collectAssigns_congr {step₁ step₂ : ConvertibleField → Except String (Option (FieldIdentifier × Val))}
    : ∀ {fields : List ConvertibleField}, (∀ fc ∈ fields, step₁ fc = step₂ fc) →
    collectAssigns step₁ fields = collectAssigns step₂ fields := by
  intro fields
  induction fields with
  | nil => intro _; rfl
  | cons fc rest ih =>
    intro h
    simp only [collectAssigns, h fc (List.mem_cons_self fc rest),
      ih (fun x hx => h x (List.mem_cons_of_mem fc hx))]

theorem getFieldNamed_skip {n₀ : String} {v₀ : Val} {rest : List (String × Val)}
    {nm : String} (h : nm ≠ n₀) :
    getFieldNamed nm ((n₀, v₀) :: rest) = getFieldNamed nm rest := by
  have hne : ¬ (n₀ = nm) := fun c => h (Eq.symm c)
  simp only [getFieldNamed, if_neg hne]



theorem structRT_core {f : Val → Val} {g : Val → Except String Val}
    {dflt dfltField : Val} {fEnv : String → StructVal → Except String Val}
    {fEnvInf : String → StructVal → Val} {tgtType : String}
    (lossless : ∀ x, g (f x) = .ok x) :
    ∀ (decls : List (String × Option String × Ty)) (pairs : List (String × Val)),
      List.Forall₂ (fun d p => p.1 = d.1 ∧
        WS (decide_field_method_for_type d.2.2) p.2) decls pairs →
      (decls.map (fun d => d.1)).Nodup →
      (decls.map tgtOf).Nodup →
      ∃ mid : List (String × Val),
        collectAssigns (fieldInfallibleSem fEnvInf f dflt dfltField (.named pairs))
            (intoList decls)
          = .ok (mid.map (fun q => (FieldIdentifier.named q.1, q.2))) ∧
        mid.map Prod.fst = decls.map tgtOf ∧
        collectAssigns (fieldFallibleSem fEnv g dflt dfltField tgtType true (.named mid))
            (tryFromList decls)
          = .ok (pairs.map (fun p => (FieldIdentifier.named p.1, p.2))) := by
  intro decls pairs halign
  induction halign with
  | nil =>
    intro _ _
    exact ⟨[], rfl, rfl, rfl⟩
  | cons hdp htail ih =>
    next d p decls' pairs' =>
    intro hnodsrc hnodtgt
    obtain ⟨hp1, hws⟩ := hdp
    rw [List.map_cons] at hnodsrc hnodtgt
    obtain ⟨hsrc_hd, hsrc_tl⟩ := List.nodup_cons.mp hnodsrc
    obtain ⟨htgt_hd, htgt_tl⟩ := List.nodup_cons.mp hnodtgt
    obtain ⟨w, hw1, hw2⟩ := @roundTripEval f g dflt lossless
      (decide_field_method_for_type d.2.2)
      (decideType_isPlainContainer d.2.2) p.2 hws
    obtain ⟨mid', hInto', hKeys', hBack'⟩ := ih hsrc_tl htgt_tl
    refine ⟨(tgtOf d, w) :: mid', ?_, ?_, ?_⟩
    · -- into direction
      have hstep : fieldInfallibleSem fEnvInf f dflt dfltField (.named (p :: pairs'))
          { source_name := .named d.1, skip := false, default := false,
            method := decide_field_method_for_type d.2.2,
            target_name := .named (tgtOf d), conversion_func := none }
          = .ok (some (.named (tgtOf d), w)) := by
        simp only [fieldInfallibleSem, readSource, getFieldNamed]
        rw [if_pos hp1]
        simp [hw1]
      have htailcong : collectAssigns
          (fieldInfallibleSem fEnvInf f dflt dfltField (.named (p :: pairs')))
          (intoList decls')
          = collectAssigns (fieldInfallibleSem fEnvInf f dflt dfltField (.named pairs'))
            (intoList decls') := by
        apply collectAssigns_congr
        intro fc hfc
        obtain ⟨d', hd'mem, rfl⟩ := List.mem_map.mp hfc
        have hne : d'.1 ≠ p.1 := by
          rw [hp1]
          intro c
          exact hsrc_hd (c ▸ List.mem_map_of_mem (fun x => x.1) hd'mem)
        have hread : getFieldNamed d'.1 (p :: pairs') = getFieldNamed d'.1 pairs' := by
          rcases p with ⟨pn, pv⟩
          exact getFieldNamed_skip (by simpa using hne)
        simp only [fieldInfallibleSem, readSource, hread]
      have hcons : intoList (d :: decls') =
          ({ source_name := .named d.1, skip := false, default := false,
             method := decide_field_method_for_type d.2.2,
             target_name := .named (tgtOf d), conversion_func := none } : ConvertibleField)
            :: intoList decls' := rfl
      rw [hcons]
      simp only [collectAssigns, hstep, htailcong, hInto']
      simp
    · simp only [List.map_cons, hKeys']
    · -- back direction
      have hstep : fieldFallibleSem fEnv g dflt dfltField tgtType true
          (.named ((tgtOf d, w) :: mid'))
          { source_name := .named (tgtOf d), skip := false, default := false,
            method := decide_field_method_for_type d.2.2,
            target_name := .named d.1, conversion_func := none }
          = .ok (some (.named d.1, p.2)) := by
        simp only [fieldFallibleSem, readSource, getFieldNamed, if_pos rfl]
        simp [fieldFallibleConv, hw2]
      have htailcong : collectAssigns
          (fieldFallibleSem fEnv g dflt dfltField tgtType true
            (.named ((tgtOf d, w) :: mid')))
          (tryFromList decls')
          = collectAssigns (fieldFallibleSem fEnv g dflt dfltField tgtType true
            (.named mid')) (tryFromList decls') := by
        apply collectAssigns_congr
        intro fc hfc
        obtain ⟨d', hd'mem, rfl⟩ := List.mem_map.mp hfc
        have hne : tgtOf d' ≠ tgtOf d := by
          intro c
          exact htgt_hd (c ▸ List.mem_map_of_mem tgtOf hd'mem)
        have hread : getFieldNamed (tgtOf d') ((tgtOf d, w) :: mid')
            = getFieldNamed (tgtOf d') mid' := getFieldNamed_skip hne
        simp only [fieldFallibleSem, readSource, hread]
      have hcons : tryFromList (d :: decls') =
          ({ source_name := .named (tgtOf d), skip := false, default := false,
             method := decide_field_method_for_type d.2.2,
             target_name := .named d.1, conversion_func := none } : ConvertibleField)
            :: tryFromList decls' := rfl
      rw [hcons]
      simp only [collectAssigns, hstep, htailcong, hBack']
      rcases p with ⟨pn, pv⟩
      simp only [List.map_cons]
      rw [show pn = d.1 from hp1]



/-- C1 (Round-trip): for a struct declaring both an infallible
`into(Target)` and a fallible `try_from(Target)` conversion, whose
fields are plain declarations (so every strategy is a plain or container
strategy), with lossless element conversions (`g (f x) = ok x`), the
generated `into` conversion followed by the generated `try_from`
conversion returns the original value. -/
theorem claim_C1_round_trip
    (decls : List (String × Option String × Ty)) (pairs : List (String × Val))
    (srcName tgtName : String)
    (f : Val → Val) (g : Val → Except String Val) (dflt dfltField : Val)
    (fEnv : String → StructVal → Except String Val)
    (fEnvInf : String → StructVal → Val)
    (lossless : ∀ x, g (f x) = .ok x)
    (halign : List.Forall₂ (fun d p => p.1 = d.1 ∧
      WS (decide_field_method_for_type d.2.2) p.2) decls pairs)
    (hsrc : (decls.map (fun d => d.1)).Nodup)
    (htgt : (decls.map tgtOf).Nodup) :
    ∃ intoFields tryFromFields mid,
      extract_convertible_fields (decls.map cleanField) .Into tgtName = .ok intoFields ∧
      extract_convertible_fields (decls.map cleanField) .TryFrom tgtName = .ok tryFromFields ∧
      structFromSem true intoFields fEnvInf f dflt dfltField (.named pairs) = .ok mid ∧
      structTryFromSem tgtName srcName none true tryFromFields fEnv g dflt dfltField mid
        = .ok (.named pairs) := by
  obtain ⟨mid, hInto, hKeys, hBack⟩ :=
    @structRT_core f g dflt dfltField fEnv fEnvInf srcName lossless decls pairs
      halign hsrc htgt
  refine ⟨intoList decls, tryFromList decls, .named mid, ?_, ?_, ?_, ?_⟩
  · simpa [ConversionMethod.is_from] using extract_clean .Into tgtName decls
  · simpa [ConversionMethod.is_from] using extract_clean .TryFrom tgtName decls
  · unfold structFromSem
    rw [hInto]
    have : (mid.map (fun q => (FieldIdentifier.named q.1, q.2))).map
        (fun a => (a.1.render, a.2)) = mid := by
      rw [List.map_map]
      have : ((fun (a : FieldIdentifier × Val) => (a.1.render, a.2)) ∘
          (fun (q : String × Val) => (FieldIdentifier.named q.1, q.2)))
          = fun q => q := by
        funext q
        simp [FieldIdentifier.render]
      rw [this]
      simp
    simp [buildTarget, this]
  · unfold structTryFromSem
    rw [hBack]
    have : (pairs.map (fun p => (FieldIdentifier.named p.1, p.2))).map
        (fun a => (a.1.render, a.2)) = pairs := by
      rw [List.map_map]
      have : ((fun (a : FieldIdentifier × Val) => (a.1.render, a.2)) ∘
          (fun (p : String × Val) => (FieldIdentifier.named p.1, p.2)))
          = fun p => p := by
        funext p
        simp [FieldIdentifier.render]
      rw [this]
      simp
    simp [buildTarget, this]

/-- Witness for C1 at a concrete two-field struct
`{ a : Option<u32>, b : Vec<u32> }` with identity element conversions. -/
theorem claim_C1_witness :
    ∃ intoFields tryFromFields mid,
      extract_convertible_fields
        ([("a", none, Ty.seg1 "Option" [Ty.other]),
          ("b", none, Ty.seg1 "Vec" [Ty.other])].map cleanField) .Into "T"
        = .ok intoFields ∧
      extract_convertible_fields
        ([("a", none, Ty.seg1 "Option" [Ty.other]),
          ("b", none, Ty.seg1 "Vec" [Ty.other])].map cleanField) .TryFrom "T"
        = .ok tryFromFields ∧
      structFromSem true intoFields (fun _ _ => .atom 0) (fun v => v) (.atom 0) (.atom 0)
        (.named [("a", .opt (some (.atom 5))), ("b", .list [.atom 1, .atom 2])])
        = .ok mid ∧
      structTryFromSem "T" "S" none true tryFromFields (fun _ _ => .error "")
        (fun v => .ok v) (.atom 0) (.atom 0) mid
        = .ok (.named [("a", .opt (some (.atom 5))), ("b", .list [.atom 1, .atom 2])]) := by
  refine claim_C1_round_trip _ _ "S" "T" (fun v => v) (fun v => .ok v) (.atom 0) (.atom 0)
    (fun _ _ => .error "") (fun _ _ => .atom 0) (fun x => rfl) ?_ (by simp) (by simp [tgtOf])
  refine List.Forall₂.cons ⟨rfl, ?_⟩ (List.Forall₂.cons ⟨rfl, ?_⟩ List.Forall₂.nil)
  · rw [show decide_field_method_for_type (Ty.seg1 "Option" [Ty.other]) =
      .option .plain by simp]
    exact WS.optSome _ _ (WS.plain _)
  · rw [show decide_field_method_for_type (Ty.seg1 "Vec" [Ty.other]) =
      .iterator .plain by simp]
    exact WS.list _ _ (fun x _ => WS.plain x)


/-! ## Claims C2 - C10 -/


/-- C2 (Shape fidelity): for a field declared `Option<Vec<T>>` with `T`
resolving to a plain element conversion, both generated conversions send
`None` to `None`, `Some([])` to `Some([])`, and `Some([a,b])` to
`Some([f(a), f(b)])`, preserving element order. -/
theorem claim_C2_shape_fidelity (t : Ty) (ht : decide_field_method_for_type t = .plain)
    (f : Val → Val) (g : Val → Except String Val) (dflt : Val) (a b a' b' : Val)
    (hga : g a = .ok a') (hgb : g b = .ok b') :
    (infallibleEval f dflt
        (decide_field_method_for_type (Ty.seg1 "Option" [Ty.seg1 "Vec" [t]]))
        (.opt none) = .ok (.opt none)
      ∧ infallibleEval f dflt
        (decide_field_method_for_type (Ty.seg1 "Option" [Ty.seg1 "Vec" [t]]))
        (.opt (some (.list []))) = .ok (.opt (some (.list [])))
      ∧ infallibleEval f dflt
        (decide_field_method_for_type (Ty.seg1 "Option" [Ty.seg1 "Vec" [t]]))
        (.opt (some (.list [a, b]))) = .ok (.opt (some (.list [f a, f b]))))
    ∧ (fallibleEval g dflt
        (decide_field_method_for_type (Ty.seg1 "Option" [Ty.seg1 "Vec" [t]]))
        (.opt none) = .ok (.opt none)
      ∧ fallibleEval g dflt
        (decide_field_method_for_type (Ty.seg1 "Option" [Ty.seg1 "Vec" [t]]))
        (.opt (some (.list []))) = .ok (.opt (some (.list [])))
      ∧ fallibleEval g dflt
        (decide_field_method_for_type (Ty.seg1 "Option" [Ty.seg1 "Vec" [t]]))
        (.opt (some (.list [a, b]))) = .ok (.opt (some (.list [a', b'])))) := by
  rw [decideType_option, decideType_vec, ht]
  refine ⟨⟨?_, ?_, ?_⟩, ?_, ?_, ?_⟩ <;>
    simp [infallibleEval, fallibleEval, exceptMapList, hga, hgb]

/-- Witness for C2 at `T = u32` (an unrecognized plain type) and
identity conversions. -/
theorem claim_C2_witness :
    infallibleEval (fun v => v) (.atom 0)
      (decide_field_method_for_type (Ty.seg1 "Option" [Ty.seg1 "Vec" [Ty.other]]))
      (.opt (some (.list [.atom 1, .atom 2])))
      = .ok (.opt (some (.list [.atom 1, .atom 2])))
    ∧ fallibleEval (fun v => .ok v) (.atom 0)
      (decide_field_method_for_type (Ty.seg1 "Option" [Ty.seg1 "Vec" [Ty.other]]))
      (.opt none) = .ok (.opt none) := by
  have h := claim_C2_shape_fidelity Ty.other decideType_other
    (fun v => v) (fun v => .ok v) (.atom 0) (.atom 1) (.atom 2) (.atom 1) (.atom 2)
    rfl rfl
  exact ⟨h.1.2.2, h.2.1⟩

/-- C3 (Unwrap direction semantics): with `unwrap` or
`unwrap_or_default` set (and not both), `decide_field_method` behaves as
follows. Declared type not `Option` at the outermost layer: the non-From
direction is the error "Cannot unwrap non-Option field", the From
direction wraps the strategy of the declared type itself in
`UnwrapOption`/`UnwrapOrDefault`. Declared type `Option` at the
outermost layer: the non-From direction peels the `Option` and wraps the
inner strategy in `UnwrapOption`/`UnwrapOrDefault`, the From direction
peels the `Option` and wraps the inner strategy in `SomeOption`. -/
theorem claim_C3_unwrap_direction (ty : Ty) (isFrom u ud : Bool)
    (hflag : (u || ud) = true) (hnotboth : ¬(u = true ∧ ud = true)) :
    (is_surrounding_type ty "Option" = false → isFrom = false →
      decide_field_method ty isFrom u ud = .error "Cannot unwrap non-Option field")
    ∧ (is_surrounding_type ty "Option" = false → isFrom = true →
      decide_field_method ty isFrom u ud =
        .ok (if u then .unwrapOption (decide_field_method_for_type ty)
             else .unwrapOrDefault (decide_field_method_for_type ty)))
    ∧ (∀ inner, extract_inner_type ty "Option" = some inner → isFrom = false →
      decide_field_method ty isFrom u ud =
        .ok (if u then .unwrapOption (decide_field_method_for_type inner)
             else .unwrapOrDefault (decide_field_method_for_type inner)))
    ∧ (∀ inner, extract_inner_type ty "Option" = some inner → isFrom = true →
      decide_field_method ty isFrom u ud =
        .ok (.someOption (decide_field_method_for_type inner))) := by
  have hand : (u && ud) = false := by
    cases u <;> cases ud <;> simp_all
  refine ⟨?_, ?_, ?_, ?_⟩
  · intro hopt hfrom
    subst hfrom
    have hext : extract_inner_type ty "Option" = none := by
      cases hh : extract_inner_type ty "Option" with
      | none => rfl
      | some x => simp [is_surrounding_type, hh] at hopt
    simp [decide_field_method, hand, hflag, hext]
  · intro hopt hfrom
    subst hfrom
    have hext : extract_inner_type ty "Option" = none := by
      cases hh : extract_inner_type ty "Option" with
      | none => rfl
      | some x => simp [is_surrounding_type, hh] at hopt
    simp [decide_field_method, hand, hflag, hext]
    cases u <;> simp
  · intro inner hext hfrom
    subst hfrom
    simp [decide_field_method, hand, hflag, hext]
    cases u <;> simp
  · intro inner hext hfrom
    subst hfrom
    simp [decide_field_method, hand, hflag, hext]

/-- Witness for C3 at `Option<u32>` and `u32`, in both directions with
`unwrap` set. -/
theorem claim_C3_witness :
    decide_field_method Ty.other false true false
      = .error "Cannot unwrap non-Option field"
    ∧ decide_field_method Ty.other true true false
      = .ok (.unwrapOption (decide_field_method_for_type Ty.other))
    ∧ decide_field_method (Ty.seg1 "Option" [Ty.other]) false true false
      = .ok (.unwrapOption (decide_field_method_for_type Ty.other))
    ∧ decide_field_method (Ty.seg1 "Option" [Ty.other]) true true false
      = .ok (.someOption (decide_field_method_for_type Ty.other)) := by
  have h1 := claim_C3_unwrap_direction Ty.other false true false rfl (by simp)
  have h2 := claim_C3_unwrap_direction Ty.other true true false rfl (by simp)
  have h3 := claim_C3_unwrap_direction (Ty.seg1 "Option" [Ty.other]) false true false
    rfl (by simp)
  have h4 := claim_C3_unwrap_direction (Ty.seg1 "Option" [Ty.other]) true true false
    rfl (by simp)
  refine ⟨h1.1 rfl rfl, ?_, ?_, h4.2.2.2 Ty.other (by simp [extract_inner_type]) rfl⟩
  · have := h2.2.1 rfl rfl
    simpa using this
  · have := h3.2.2.1 Ty.other (by simp [extract_inner_type]) rfl
    simpa using this



/-- Prefix test on character lists. -/
def listStartsWith : List Char → List Char → Bool
  | _, [] => true
  | [], _ :: _ => false
  | h :: hs, p :: ps => h == p && listStartsWith hs ps

/-- Substring test on character lists. -/
def containsSub : List Char → List Char → Bool
  | [], pat => pat.isEmpty
  | h :: hs, pat => listStartsWith (h :: hs) pat || containsSub hs pat

/-- A diagnostic message "names" an identifier when the identifier
occurs in it as a substring. -/
def mentions (msg ident : String) : Bool := containsSub msg.data ident.data

/-- C4 as stated is false for the infallible direction: for a field
named `price` marked `unwrap` whose option is empty, the generated
infallible conversion panics with the fixed message
`Expected value to exist when converting`, which does not name the
field. -/
theorem claim_C4_counterexample :
    fieldInfallibleSem (fun _ _ => .atom 0) (fun v => v) (.atom 0) (.atom 0)
      (.named [("price", .opt none)])
      { source_name := .named "price", skip := false, default := false,
        method := .unwrapOption .plain, target_name := .named "price",
        conversion_func := none }
      = .error unwrapPanicMsg
    ∧ mentions unwrapPanicMsg "price" = false := by
  constructor
  · simp [fieldInfallibleSem, readSource, getFieldNamed, infallibleEval]
  · decide

theorem listStartsWith_append (pat rest : List Char) :
    listStartsWith (pat ++ rest) pat = true := by
  induction pat with
  | nil => cases rest <;> rfl
  | cons p ps ih => simp [listStartsWith, ih]

theorem containsSub_here (pat rest : List Char) :
    containsSub (pat ++ rest) pat = true := by
  cases pat with
  | nil =>
    cases rest with
    | nil => rfl
    | cons h hs => simp [containsSub, listStartsWith]
  | cons p ps =>
    have h1 := listStartsWith_append (p :: ps) rest
    simp only [List.cons_append] at h1
    simp [containsSub, h1]

theorem containsSub_append_right (a b pat : List Char)
    (h : containsSub b pat = true) : containsSub (a ++ b) pat = true := by
  induction a with
  | nil => simpa using h
  | cons x xs ih => simp [containsSub, ih]

theorem mentions_of_decomp (x y nm : String) :
    mentions (x ++ nm ++ y) nm = true := by
  unfold mentions
  have hd : (x ++ nm ++ y).data = x.data ++ (nm.data ++ y.data) := by
    simp [String.data_append]
  rw [hd]
  exact containsSub_append_right _ _ _ (containsSub_here _ _)

/-- C4 amended: a field marked `unwrap` over an empty option fails, in
the fallible direction, with the uniform message naming the field and
the target type (no default is substituted); the infallible direction
panics with the fixed message `Expected value to exist when converting`,
which names neither. -/
theorem claim_C4_unwrap_runtime (nm tgt : String) (m : FieldConversionMethod)
    (fEnv : String → StructVal → Except String Val)
    (fEnvInf : String → StructVal → Val)
    (g : Val → Except String Val) (f : Val → Val) (dflt dfltField : Val) :
    fieldFallibleSem fEnv g dflt dfltField tgt true (.named [(nm, .opt none)])
      { source_name := .named nm, skip := false, default := false,
        method := .unwrapOption m, target_name := .named nm,
        conversion_func := none }
      = .error (uniformErr ("source." ++ nm) tgt unwrapErrMsg)
    ∧ mentions (uniformErr ("source." ++ nm) tgt unwrapErrMsg) nm = true
    ∧ fieldInfallibleSem fEnvInf f dflt dfltField (.named [(nm, .opt none)])
      { source_name := .named nm, skip := false, default := false,
        method := .unwrapOption m, target_name := .named nm,
        conversion_func := none }
      = .error unwrapPanicMsg := by
  refine ⟨?_, ?_, ?_⟩
  · simp [fieldFallibleSem, readSource, getFieldNamed, fieldFallibleConv,
      fallibleEval, fieldLabel, FieldIdentifier.render]
  · unfold mentions
    have hd : (uniformErr ("source." ++ nm) tgt unwrapErrMsg).data
        = "Failed trying to convert ".data ++ ("source.".data ++ (nm.data ++
          (" to ".data ++ (tgt.data ++ (": ".data ++ unwrapErrMsg.data))))) := by
      simp [uniformErr, String.data_append]
    rw [hd]
    apply containsSub_append_right
    apply containsSub_append_right
    exact containsSub_here _ _
  · simp [fieldInfallibleSem, readSource, getFieldNamed, infallibleEval]



/-- C5 (Validation gating): a declared validation hook runs against the
whole source value before any field conversion; when it fails, the
target value is never constructed — the conversion returns exactly
`Failed trying to convert {Source} to {Target}: {hook error}` — for
struct conversions and enum conversions alike, whatever the field lists
would have produced. -/
theorem claim_C5_validation_gating
    (srcName tgtName : String) (e : String)
    (vf : StructVal → Except String Unit) (vfe : EnumVal → Except String Unit)
    (named_struct : Bool) (fields : List ConvertibleField)
    (variants : List ConversionVariant) (dfltRest : List (String × Val))
    (fEnv : String → StructVal → Except String Val)
    (g : Val → Except String Val) (dflt dfltField : Val)
    (source : StructVal) (esource : EnumVal)
    (hv : vf source = .error e) (hve : vfe esource = .error e) :
    structTryFromSem srcName tgtName (some vf) named_struct fields fEnv g dflt
      dfltField source
      = .error ("Failed trying to convert " ++ srcName ++ " to " ++ tgtName ++ ": " ++ e)
    ∧ enumTryFromSem srcName tgtName (some vfe) variants dfltRest fEnv g dflt
      dfltField esource
      = .error ("Failed trying to convert " ++ srcName ++ " to " ++ tgtName ++ ": " ++ e) := by
  constructor
  · simp [structTryFromSem, hv, uniformErr]
  · simp [enumTryFromSem, hve, uniformErr]

/-- Witness for C5: a hook rejecting the concrete source `{name: ""}` of
type `Source`, converting to `Target`. -/
theorem claim_C5_witness :
    structTryFromSem "Source" "Target"
      (some (fun _ => .error "name must not be empty")) true []
      (fun _ _ => .error "") (fun v => .ok v) (.atom 0) (.atom 0)
      (.named [("name", .atom 0)])
      = .error "Failed trying to convert Source to Target: name must not be empty"
    ∧ enumTryFromSem "Source" "Target"
      (some (fun _ => .error "name must not be empty")) [] []
      (fun _ _ => .error "") (fun v => .ok v) (.atom 0) (.atom 0)
      { variant := "A", payload := .positional [] }
      = .error "Failed trying to convert Source to Target: name must not be empty" := by
  have h := claim_C5_validation_gating "Source" "Target" "name must not be empty"
    (fun _ => .error "name must not be empty") (fun _ => .error "name must not be empty")
    true [] [] [] (fun _ _ => .error "") (fun v => .ok v) (.atom 0) (.atom 0)
    (.named [("name", .atom 0)]) { variant := "A", payload := .positional [] }
    rfl rfl
  exact h

/-- C6 as stated is false in its labelling half: a key-conversion
failure and a value-conversion failure produce identical error text when
the element conversions fail with the same message, so the two are not
distinguishable — the generated loop adds no key/value label. -/
theorem claim_C6_counterexample :
    fallibleEval
      (fun v => match v with
        | .atom 0 => .error "boom"
        | .atom 1 => .error "boom"
        | x => .ok x)
      (.atom 9) (.hashMap .plain .plain) (.map [(.atom 0, .atom 2)])
      = .error "boom"
    ∧ fallibleEval
      (fun v => match v with
        | .atom 0 => .error "boom"
        | .atom 1 => .error "boom"
        | x => .ok x)
      (.atom 9) (.hashMap .plain .plain) (.map [(.atom 2, .atom 1)])
      = .error "boom" := by
  constructor <;> simp [fallibleEval, fallibleMapFold]

/-- C6 amended: the fallible `HashMap` conversion short-circuits on the
first failing entry — the key conversion of an entry runs before its
value conversion — and returns that inner failure unchanged, with no
key/value label attached. -/
theorem claim_C6_short_circuit
    (g : Val → Except String Val) (dflt : Val)
    (km vm : FieldConversionMethod) (e : Val × Val)
    (rest : List (Val × Val)) (ek ev : String) :
    (fallibleEval g dflt km e.1 = .error ek →
      fallibleEval g dflt (.hashMap km vm) (.map (e :: rest)) = .error ek)
    ∧ (∀ k', fallibleEval g dflt km e.1 = .ok k' →
      fallibleEval g dflt vm e.2 = .error ev →
      fallibleEval g dflt (.hashMap km vm) (.map (e :: rest)) = .error ev) := by
  constructor
  · intro hk
    simp [fallibleEval, fallibleMapFold, hk]
  · intro k' hk hv
    simp [fallibleEval, fallibleMapFold, hk, hv]

/-- Witness for C6's amended statement: a failing key short-circuits
ahead of a later entry that would also fail. -/
theorem claim_C6_witness :
    fallibleEval (fun v => match v with | .atom 0 => .error "bad" | x => .ok x)
      (.atom 9) (.hashMap .plain .plain)
      (.map [(.atom 0, .atom 5), (.atom 0, .atom 6)]) = .error "bad" :=
  (claim_C6_short_circuit
    (fun v => match v with | .atom 0 => .error "bad" | x => .ok x)
    (.atom 9) .plain .plain (.atom 0, .atom 5) [(.atom 0, .atom 6)] "bad" "").1 rfl

/-- C7 (Resolver totality): the strategy resolver is a total function on
declared types; each container extraction strictly reduces the
structural size (so the recursion terminates); an unrecognized type is
classified `Plain`; and without unwrap flags `decide_field_method` never
errors, returning exactly the resolver's strategy. -/
theorem claim_C7_resolver_total (ty : Ty) (isFrom : Bool) :
    (∀ inner, extract_inner_type ty "Option" = some inner → sizeOf inner < sizeOf ty)
    ∧ (∀ inner, extract_inner_type ty "Vec" = some inner → sizeOf inner < sizeOf ty)
    ∧ (∀ k v, extract_hashmap_inner_types ty = some (k, v) →
        sizeOf k < sizeOf ty ∧ sizeOf v < sizeOf ty)
    ∧ (extract_inner_type ty "Option" = none → extract_inner_type ty "Vec" = none →
        extract_hashmap_inner_types ty = none → decide_field_method_for_type ty = .plain)
    ∧ decide_field_method ty isFrom false false = .ok (decide_field_method_for_type ty) := by
  refine ⟨fun inner h => extract_inner_type_sizeOf h,
    fun inner h => extract_inner_type_sizeOf h,
    fun k v h => extract_hashmap_sizeOf h,
    fun h₀ h₁ h₂ => decideType_eq_plain h₀ h₁ h₂,
    rfl⟩

/-- Witness for C7 at `Option<u32>` (size strictly decreases) and at the
unrecognized `u32` (classified `Plain`). -/
theorem claim_C7_witness :
    sizeOf Ty.other < sizeOf (Ty.seg1 "Option" [Ty.other])
    ∧ decide_field_method_for_type Ty.other = .plain
    ∧ decide_field_method Ty.other false false false
      = .ok (decide_field_method_for_type Ty.other) :=
  ⟨(claim_C7_resolver_total (Ty.seg1 "Option" [Ty.other]) false).1 Ty.other
    (by simp [extract_inner_type]),
   (claim_C7_resolver_total Ty.other false).2.2.2.1 rfl rfl rfl,
   (claim_C7_resolver_total Ty.other false).2.2.2.2⟩



theorem genAll_append_error (f : ConversionMeta → Except GenErr StructImpl) :
    ∀ (pre : List ConversionMeta) (l : List StructImpl) (c : ConversionMeta)
      (post : List ConversionMeta) (e : GenErr),
    genAll f pre = .ok l → f c = .error e → genAll f (pre ++ c :: post) = .error e := by
  intro pre
  induction pre with
  | nil =>
    intro l c post e _ hc
    simp [genAll, hc]
  | cons x xs ih =>
    intro l c post e hpre hc
    simp only [List.cons_append, genAll] at hpre ⊢
    cases hfx : f x with
    | error err => simp [hfx] at hpre
    | ok impl =>
      simp only [hfx] at hpre ⊢
      cases hrest : genAll f xs with
      | error err => simp [hrest] at hpre
      | ok tail =>
        have hxs := ih tail c post e hrest hc
        rw [show xs.append (c :: post) = xs ++ c :: post from rfl, hxs]

/-- C8 as stated is false in its "siblings still generate" half: on an
unnamed (tuple) struct declaring two conversions, the first of which is
the configuration error `default` on an unnamed struct, the whole derive
returns that error — no impl is generated for the second, valid
conversion — although the second conversion alone would generate. -/
theorem claim_C8_counterexample :
    implement_all_struct_conversions (.unnamed [{ ident := none, ty := Ty.other }])
      [{ source_name := "S", target_name := "T", method := .Into,
         default_allowed := true, validate := none },
       { source_name := "S", target_name := "U", method := .Into,
         default_allowed := false, validate := none }] false
      = .error (.err "Default values are not supported for unnamed structs")
    ∧ ∃ impl,
      implement_all_struct_conversions (.unnamed [{ ident := none, ty := Ty.other }])
        [{ source_name := "S", target_name := "U", method := .Into,
           default_allowed := false, validate := none }] false
        = .ok [impl] := by
  constructor
  · simp [implement_all_struct_conversions, genAll, oneStructConversion,
      extract_convertible_fields, extractFieldsLoop, ConvertField.attrsFor,
      decide_field_method, ConversionMeta.other_type, ConversionMethod.is_from,
      sortFuncFirst, implement_struct_conversion, ConversionMethod.is_falliable]
  · have himpl : implement_all_struct_conversions
        (.unnamed [{ ident := none, ty := Ty.other }])
        [{ source_name := "S", target_name := "U", method := .Into,
           default_allowed := false, validate := none }] false
        = .ok [{ source_name := "S", target_name := "U", falliable := false,
                 error_type := none, validated := none, named_struct := false,
                 default_allowed := false,
                 fields := [{ source_name := FieldIdentifier.unnamed 0, skip := false,
                              default := false, method := FieldConversionMethod.plain,
                              target_name := FieldIdentifier.unnamed 0,
                              conversion_func := none }] }] := by
      simp [implement_all_struct_conversions, genAll, oneStructConversion,
        extract_convertible_fields, extractFieldsLoop, ConvertField.attrsFor,
        decide_field_method, ConversionMeta.other_type, ConversionMethod.is_from,
        sortFuncFirst, implement_struct_conversion, ConversionMethod.is_falliable]
    exact ⟨_, himpl⟩

/-- C8 amended: every such configuration error is detected at
generation time, but it aborts the whole derive for that type: the
first failing conversion's error is returned and no sibling conversion
of the same type generates. -/
theorem claim_C8_abort_all (fds : List ConvertField) (anyhowFeature : Bool)
    (pre post : List ConversionMeta) (c : ConversionMeta)
    (l : List StructImpl) (e : GenErr)
    (hpre : genAll (oneStructConversion fds true anyhowFeature) pre = .ok l)
    (hc : oneStructConversion fds true anyhowFeature c = .error e) :
    implement_all_struct_conversions (.named fds) (pre ++ c :: post) anyhowFeature
      = .error e := by
  unfold implement_all_struct_conversions
  exact genAll_append_error _ pre l c post e hpre hc



/-- C9: the func-first sort is real — extraction places the with-func
field (declared second) ahead of the plain field — but for a positional
(unnamed-field) target the reorder is semantically visible: the emitted
constructor arguments come in sorted order, so the custom function's
result lands in position 0 and the converted field 0 in position 1,
which differs from the declaration-order result the claim requires. -/
theorem claim_C9_positional_reorder :
    extract_convertible_fields
      [{ ident := none, ty := Ty.other },
       { ident := none, ty := Ty.other, with_func := some "g" }] .Into "T"
      = .ok [{ source_name := FieldIdentifier.unnamed 1, skip := false,
               default := false, method := FieldConversionMethod.plain,
               target_name := FieldIdentifier.unnamed 1, conversion_func := some "g" },
             { source_name := FieldIdentifier.unnamed 0, skip := false,
               default := false, method := FieldConversionMethod.plain,
               target_name := FieldIdentifier.unnamed 0, conversion_func := none }]
    ∧ structFromSem false
        [{ source_name := FieldIdentifier.unnamed 1, skip := false,
           default := false, method := FieldConversionMethod.plain,
           target_name := FieldIdentifier.unnamed 1, conversion_func := some "g" },
         { source_name := FieldIdentifier.unnamed 0, skip := false,
           default := false, method := FieldConversionMethod.plain,
           target_name := FieldIdentifier.unnamed 0, conversion_func := none }]
        (fun _ _ => Val.atom 99) (fun v => v) (.atom 7) (.atom 7)
        (.positional [.atom 0, .atom 1])
      = .ok (.positional [.atom 99, .atom 0])
    ∧ structFromSem false
        [{ source_name := FieldIdentifier.unnamed 0, skip := false,
           default := false, method := FieldConversionMethod.plain,
           target_name := FieldIdentifier.unnamed 0, conversion_func := none },
         { source_name := FieldIdentifier.unnamed 1, skip := false,
           default := false, method := FieldConversionMethod.plain,
           target_name := FieldIdentifier.unnamed 1, conversion_func := some "g" }]
        (fun _ _ => Val.atom 99) (fun v => v) (.atom 7) (.atom 7)
        (.positional [.atom 0, .atom 1])
      = .ok (.positional [.atom 0, .atom 99])
    ∧ (StructVal.positional [.atom 99, .atom 0]) ≠ (StructVal.positional [.atom 0, .atom 99]) := by
  refine ⟨?_, ?_, ?_, ?_⟩
  · simp [extract_convertible_fields, extractFieldsLoop, ConvertField.attrsFor,
      decide_field_method, ConversionMethod.is_from, sortFuncFirst]
  · simp [structFromSem, collectAssigns, fieldInfallibleSem, readSource,
      infallibleEval, buildTarget]
  · simp [structFromSem, collectAssigns, fieldInfallibleSem, readSource,
      infallibleEval, buildTarget]
  · simp

/-- C10: a fallible enum conversion impl declares `type Error = String`
unconditionally, while a fallible struct conversion impl under the
`anyhow` feature declares `type Error = anyhow::Error`, so the two
generated impls use different error types under that feature. -/
theorem claim_C10_error_types (m1 m2 : ConversionMeta) (nst : Bool)
    (fields : List ConvertibleField) (impl : StructImpl)
    (h1 : m1.method.is_falliable = true) (h2 : m2.method.is_falliable = true)
    (hgen : implement_struct_conversion m2 nst fields true = .ok impl) :
    (implement_enum_conversion m1).error_type = some "String"
    ∧ impl.error_type = some "anyhow::Error"
    ∧ impl.error_type ≠ (implement_enum_conversion m1).error_type := by
  have he : (implement_enum_conversion m1).error_type = some "String" := by
    simp [implement_enum_conversion, h1]
  have hs : impl.error_type = some "anyhow::Error" := by
    unfold implement_struct_conversion at hgen
    split at hgen
    · exact Except.noConfusion hgen
    · injection hgen with h
      subst h
      simp [h2]
  exact ⟨he, hs, by rw [hs, he]; simp⟩

/-- Witness for C10 at concrete `try_from` enum and `try_into` struct
conversions with the `anyhow` feature enabled. -/
theorem claim_C10_witness :
    (implement_enum_conversion
      { source_name := "A", target_name := "B", method := .TryFrom,
        default_allowed := false, validate := none }).error_type = some "String"
    ∧ ({ source_name := "C", target_name := "D", falliable := true,
         error_type := some "anyhow::Error", validated := none,
         named_struct := true, default_allowed := false,
         fields := [] } : StructImpl).error_type = some "anyhow::Error"
    ∧ ({ source_name := "C", target_name := "D", falliable := true,
         error_type := some "anyhow::Error", validated := none,
         named_struct := true, default_allowed := false,
         fields := [] } : StructImpl).error_type
      ≠ (implement_enum_conversion
        { source_name := "A", target_name := "B", method := .TryFrom,
          default_allowed := false, validate := none }).error_type :=
  claim_C10_error_types
    { source_name := "A", target_name := "B", method := .TryFrom,
      default_allowed := false, validate := none }
    { source_name := "C", target_name := "D", method := .TryInto,
      default_allowed := false, validate := none }
    true [] _ rfl rfl rfl



/-- Witness for C8's amended statement: a field marked `unwrap` whose
type is not `Option` makes the single declared `into` conversion fail,
and the derive returns that error. -/
theorem claim_C8_witness :
    implement_all_struct_conversions
      (.named [{ ident := some "a", ty := Ty.other, unwrap := true }])
      [{ source_name := "S", target_name := "T", method := .Into,
         default_allowed := false, validate := none }] false
      = .error (.err "Cannot unwrap non-Option field") :=
  claim_C8_abort_all [{ ident := some "a", ty := Ty.other, unwrap := true }] false
    [] []
    { source_name := "S", target_name := "T", method := .Into,
      default_allowed := false, validate := none }
    [] (.err "Cannot unwrap non-Option field") rfl
    (by simp [oneStructConversion, extract_convertible_fields, extractFieldsLoop,
      ConvertField.attrsFor, decide_field_method, ConversionMeta.other_type,
      ConversionMethod.is_from, extract_inner_type])


end DeriveInto
